import Mathlib

/-!
Verification of `src/services/github/github-commit-activity.service.js` and the
license-color helpers shipped in the same source bundle, against the design
specification of the shared request-dispatch layer.

JavaScript values that matter to the claims are embedded explicitly:
machine-level JS numbers never overflow here (all counts are small naturals),
strings are Lean `String`s, `undefined`/`null` are `Option.none` or a dedicated
constructor, and a thrown error is a constructor of the result type.
-/

/-- A JavaScript value as far as the claims need it: a number, a string, or
`undefined`. `transformAuthorFilter` can produce all three. -/
inductive JsVal where
  | num (n : Int)
  | str (s : String)
  | undef
  deriving DecidableEq

/-- Modelled from the spec: the failure taxonomy of the shared service layer
(`src/services/index.js` is not among the given sources; the spec lists the
kinds `NotFound`, `RateLimited`, `AuthRejected`, `TransientServerError`,
`InvalidResponse`, `Deprecated`). The commit-activity service only ever
constructs `InvalidResponse`. -/
inductive FailureKind where
  | notFound
  | rateLimited
  | authRejected
  | transientServerError
  | invalidResponse
  | deprecated
  deriving DecidableEq

/-- A classified failure: kind plus the human-readable `prettyMessage`. -/
structure ServiceFailure where
  kind : FailureKind
  prettyMessage : String
  deriving DecidableEq

/-- Outcome of `transformAuthorFilter`: a returned value, a thrown classified
failure (`throw new InvalidResponse(...)`), or an uncontrolled JavaScript
`TypeError` (reading a property of `undefined`). -/
inductive TransformResult where
  | ok (v : JsVal)
  | failure (kind : FailureKind) (prettyMessage : String)
  | typeError
  deriving DecidableEq

/-- The failure kind of a transform outcome, when it is a classified failure. -/
def TransformResult.failureKind : TransformResult → Option FailureKind
  | .failure k _ => some k
  | _ => none

/-- One relation entry of a parsed `Link` header. The `parse-link-header`
library exposes every query parameter of the linked URL as a STRING property;
`page` is absent when the linked URL has no `page` query parameter. -/
structure LinkEntry where
  page : Option String
  deriving DecidableEq

/-- Result of the external `parse-link-header` library: `none` models the
`null` it returns for an absent or empty header; `some rels` models the object
it returns for a present header, keyed by relation name (`some []` is the
truthy empty object `\x7b\x7d` it returns when no part of the header parses to
a relation). -/
abbrev ParseResult := Option (List (String × LinkEntry))

/-- The response headers consulted by `transformAuthorFilter`: only `link`. -/
structure Headers where
  link : Option String
  deriving DecidableEq

/-- The `res` argument of `transformAuthorFilter`. -/
structure Res where
  headers : Headers
  deriving DecidableEq

/-- The parsed JSON body (`buffer`): either the array of commits the listing
endpoint returns (only its length matters here), or an error object with an
optional `message` property. -/
inductive Buffer where
  | arr (items : Nat)
  | obj (message : Option String)
  deriving DecidableEq

/-- Property access `buffer.message`: `undefined` on an array. -/
def Buffer.message : Buffer → Option String
  | .arr _ => none
  | .obj m => m

namespace GitHubCommitActivity

/-- `static transformAuthorFilter({ res, buffer })`, lines 155-167 of the
service. The external `parseLinkHeader` is a parameter. Reading
`parsed.last.page` when `parsed` has no `last` key is a JavaScript `TypeError`
(property `page` of `undefined`); when the `last` entry exists, its `page`
string (or `undefined`) is returned unchanged. -/
def transformAuthorFilter (parseLinkHeader : Option String → ParseResult)
    (res : Res) (buffer : Buffer) : TransformResult :=
  if buffer.message = some "Not Found" then
    .failure .invalidResponse "invalid branch"
  else
    match parseLinkHeader res.headers.link with
    | none => .ok (.num 0)
    | some parsed =>
      match parsed.lookup "last" with
      | none => .typeError
      | some last =>
        match last.page with
        | none => .ok .undef
        | some p => .ok (.str p)

end GitHubCommitActivity

/-- Milliseconds per UTC day: UTC has no daylight saving, so JavaScript's
day-of-month arithmetic on a `Date` shifts the timestamp by exact multiples of
this constant. -/
def msPerDay : Int := 86400000

/-- Civil date (year, month 1-12, day 1-31) from a count of days since
1970-01-01, as JavaScript's `Date` UTC accessors compute it (proleptic
Gregorian calendar). -/
def civilFromDays (z0 : Int) : Int × Int × Int :=
  let z := z0 + 719468
  let era := Int.fdiv z 146097
  let doe := z - era * 146097
  let yoe := (doe - doe / 1460 + doe / 36524 - doe / 146096) / 365
  let y := yoe + era * 400
  let doy := doe - (365 * yoe + yoe / 4 - yoe / 100)
  let mp := (5 * doy + 2) / 153
  let d := doy - (153 * mp + 2) / 5 + 1
  let m := if mp < 10 then mp + 3 else mp - 9
  (if m ≤ 2 then y + 1 else y, m, d)

/-- Days since 1970-01-01 from a civil date; an out-of-range day-of-month is
carried into the following month exactly as JavaScript's `Date` setters
normalize it (so Feb 29 of a non-leap year becomes Mar 1). -/
def daysFromCivil (y0 m d : Int) : Int :=
  let y := if m ≤ 2 then y0 - 1 else y0
  let era := Int.fdiv y 400
  let yoe := y - era * 400
  let doy := (153 * (m + (if 2 < m then -3 else 9)) + 2) / 5 + d - 1
  let doe := yoe * 365 + yoe / 4 - yoe / 100 + doy
  era * 146097 + doe - 719468

/-- `now.setUTCFullYear(now.getUTCFullYear() - 1)` on an epoch-millisecond
timestamp: same month, day and time of day, previous year, normalized. -/
def subUTCYear (t : Int) : Int :=
  let z := Int.fdiv t msPerDay
  let ms := Int.fmod t msPerDay
  match civilFromDays z with
  | (y, m, d) => daysFromCivil (y - 1) m d * msPerDay + ms

namespace GitHubCommitActivity

/-- `static getIntervalQueryStartDate({ interval })`, lines 169-183. The
current clock reading (`new Date()`) is the explicit `now` parameter, in epoch
milliseconds. The source returns `now.toISOString()`, which is an injective
rendering of the timestamp (millisecond precision), so the result is embedded
as the timestamp itself; `none` is the source's `null` for interval `t`.
`setUTCDate(getUTCDate() - 30)` shifts a UTC timestamp by exactly 30 days,
and likewise 7 for the week branch. -/
def getIntervalQueryStartDate (interval : String) (now : Int) : Option Int :=
  if interval = "t" then none
  else if interval = "y" then some (subUTCYear now)
  else if interval = "m" ∨ interval = "4w" then some (now - 30 * msPerDay)
  else some (now - 7 * msPerDay)

/-- `static defaultBadgeData = { label: 'commit activity', color: 'blue' }`:
the label consulted by `render`. -/
def defaultBadgeLabel : String := "commit activity"

/-- The truthiness test JavaScript applies to an optional string
(`undefined` and the empty string are falsy). -/
def jsTruthy : Option String → Bool
  | none => false
  | some s => !(s == "")

/-- The `authorFilter ? \x60 by ...\x60 : \x60\x60` ternary of `render`. -/
def authorFilterLabel : Option String → String
  | none => ""
  | some a => if a = "" then "" else " by " ++ a

/-- The interval-suffix lookup table of `render`; `none` models the
`undefined` an object lookup yields outside the table (the route restricts
`interval` to the five keys). -/
def intervalLabel (interval : String) : Option String :=
  if interval = "t" then some ""
  else if interval = "y" then some "/year"
  else if interval = "m" then some "/month"
  else if interval = "4w" then some "/four weeks"
  else if interval = "w" then some "/week"
  else none

/-- The label/message pair `render` returns. -/
structure Badge where
  label : String
  message : String
  deriving DecidableEq

/-- `static render({ interval, commitCount, authorFilter })`, lines 68-85.
The imported `metric` formatter (from `text-formatters.js`, not among the
given sources) is a parameter; `commitCount` is a JS value because
`transformAuthorFilter` can hand `render` a string or `undefined`. A missing
table entry interpolates as the string `undefined`, as in JavaScript. -/
def render (metric : JsVal → String) (interval : String) (commitCount : JsVal)
    (authorFilter : Option String) : Badge :=
  let label := if interval = "t" then "commits" else defaultBadgeLabel
  { label := label ++ authorFilterLabel authorFilter
    message := metric commitCount ++ (intervalLabel interval).getD "undefined" }

/-- The `searchParams` of the REST listing request issued by
`fetchAuthorFilter`. -/
structure SearchParams where
  sha : String
  author : String
  per_page : String
  since : Option Int
  deriving DecidableEq

/-- The REST request `fetchAuthorFilter` passes to `this._request`. -/
structure RestRequest where
  url : String
  searchParams : SearchParams
  deriving DecidableEq

/-- `async fetchAuthorFilter({ interval, user, repo, branch = 'HEAD',
authorFilter })`, lines 119-141: builds the single REST listing request. The
`|| undefined` on the start date turns `null` into `undefined`; both are
`none` here. -/
def fetchAuthorFilter (interval user repo : String) (branch : Option String)
    (authorFilter : String) (now : Int) : RestRequest :=
  let since := getIntervalQueryStartDate interval now
  { url := s!"/repos/{user}/{repo}/commits"
    searchParams :=
      { sha := branch.getD "HEAD"
        author := authorFilter
        per_page := "1"
        since := since } }

/-- The GraphQL payload shape declared by the Joi `schema` (lines 14-24):
`data.repository` required, `repository.object` optional, and when present,
`object.history.totalCount` a non-negative integer. -/
structure History where
  totalCount : Nat
  deriving DecidableEq

/-- The `... on Commit` object of the GraphQL payload. -/
structure CommitObject where
  history : History
  deriving DecidableEq

/-- The `repository` field of the GraphQL payload. -/
structure Repository where
  object : Option CommitObject
  deriving DecidableEq

/-- The validated GraphQL payload handed to `transform`. -/
structure GqlData where
  repository : Repository
  deriving DecidableEq

/-- `static transform({ data })`, lines 143-153: destructures
`data.repository.object`; a falsy (absent) object throws
`InvalidResponse('invalid branch')`, otherwise `object.history.totalCount`
is returned unchanged. -/
def transform (data : GqlData) : Except ServiceFailure Nat :=
  match data.repository.object with
  | none => .error { kind := .invalidResponse, prettyMessage := "invalid branch" }
  | some repo => .ok repo.history.totalCount

/-- An outbound API request issued by `handle`: the REST listing request of
`fetchAuthorFilter`, or the GraphQL query of `fetch`. -/
inductive ApiRequest where
  | rest (r : RestRequest)
  | graphql (user repo branch : String) (since : Option Int)

/-- The raw REST response (`{ res, buffer }`) the environment returns for a
request. -/
structure RestResponse where
  res : Res
  buffer : Buffer

/-- The named route parameters of `handle`. -/
structure HandleParams where
  interval : String
  user : String
  repo : String
  branch : Option String

/-- The query parameters of `handle` (validated by `queryParamSchema`). -/
structure QueryParams where
  authorFilter : Option String

/-- What `handle` produces: a rendered badge, a thrown classified failure, or
an uncontrolled `TypeError` propagating out of `transformAuthorFilter`. -/
inductive HandleOutcome where
  | badge (b : Badge)
  | failure (kind : FailureKind) (prettyMessage : String)
  | typeError

/-- `async handle(...)`, lines 185-201, with its outbound requests made
explicit: the result pairs the list of issued requests, in order, with the
outcome. The transport is the pair of environment functions `envRest` /
`envGql` mapping each request to its response; the external collaborators
(`metric`, `parseLinkHeader`) and the clock are parameters as above. Each
branch issues its single request and transforms the response; no further
request depends on what the response contains. -/
def handle (metric : JsVal → String)
    (parseLinkHeader : Option String → ParseResult)
    (envRest : RestRequest → RestResponse) (envGql : ApiRequest → GqlData)
    (now : Int) (p : HandleParams) (q : QueryParams) :
    List ApiRequest × HandleOutcome :=
  if jsTruthy q.authorFilter then
    let req := fetchAuthorFilter p.interval p.user p.repo p.branch
      (q.authorFilter.getD "") now
    let r := envRest req
    (([.rest req]),
      match transformAuthorFilter parseLinkHeader r.res r.buffer with
      | .ok v => .badge (render metric p.interval v q.authorFilter)
      | .failure k m => .failure k m
      | .typeError => .typeError)
  else
    let req := ApiRequest.graphql p.user p.repo (p.branch.getD "HEAD")
      (getIntervalQueryStartDate p.interval now)
    (([req]),
      match transform (envGql req) with
      | .ok n => .badge (render metric p.interval (.num n) q.authorFilter)
      | .error e => .failure e.kind e.prettyMessage)

end GitHubCommitActivity

/-- A concrete `Link` header whose `last` relation points at page 42. -/
def lastPage42Link : String :=
  "<https://api.github.com/repositories/1/commits?per_page=1&page=2>; rel=\"next\", <https://api.github.com/repositories/1/commits?per_page=1&page=42>; rel=\"last\""

/-- A concrete `Link` header with only a `next` relation (no `last`). -/
def nextOnlyLink : String :=
  "<https://api.github.com/repositories/1/commits?per_page=1&page=2>; rel=\"next\""

/-- The external `parse-link-header` library, evaluated on the concrete headers
used in this file, following its implementation: a falsy (absent or empty)
header yields `null`; a parseable header yields the relation map with query
parameters as strings; a nonempty header in which no part parses to a relation
yields the truthy empty object. -/
def parseLinkHeaderModel : Option String → ParseResult
  | none => none
  | some s =>
    if s = "" then none
    else if s = lastPage42Link then
      some [("next", { page := some "2" }), ("last", { page := some "42" })]
    else if s = nextOnlyLink then some [("next", { page := some "2" })]
    else some []

/-- One entry of `licenseTypes`: the SPDX ids and aliases of a license family
plus its badge color and priority. The source stores priorities as the strings
'1'/'2'/'3'; the sort comparator `b.priority - a.priority` coerces them to
numbers, and the sentinel priority is the number 0, so priorities are embedded
as naturals. -/
structure LicenseTypeInfo where
  spdxLicenseIds : List String
  aliases : List String
  color : String
  priority : Nat

/-- A value of `licenseToColorMap`: `\x7b color, priority \x7d`. -/
structure ColorEntry where
  color : String
  priority : Nat
  deriving DecidableEq

/-- The `licenseTypes` table: permissive, copyleft, public-domain. -/
def licenseTypes : List LicenseTypeInfo :=
  [ { spdxLicenseIds :=
        ["AFL-3.0", "Apache-2.0", "Artistic-2.0", "BSD-2-Clause",
         "BSD-3-Clause", "BSD-3-Clause-Clear", "BSL-1.0", "CC-BY-4.0",
         "ECL-2.0", "ISC", "MIT", "MS-PL", "NCSA", "PostgreSQL", "Zlib"]
      aliases := ["BSD", "Apache 2.0"]
      color := "green"
      priority := 2 }
  , { spdxLicenseIds :=
        ["AGPL-1.0-only", "AGPL-1.0-or-later", "AGPL-3.0-only",
         "AGPL-3.0-or-later", "CC-BY-SA-4.0", "EPL-1.0", "EPL-2.0",
         "EUPL-1.1", "GPL-1.0-only", "GPL-1.0-or-later", "GPL-2.0-only",
         "GPL-2.0-or-later", "GPL-3.0-only", "GPL-3.0-or-later",
         "LGPL-2.0-only", "LGPL-2.0-or-later", "LGPL-2.1-only",
         "LGPL-2.1-or-later", "LGPL-3.0-only", "LGPL-3.0-or-later",
         "LPPL-1.3c", "MPL-2.0", "MS-RL", "OFL-1.1", "OSL-3.0"]
      aliases :=
        ["GPL", "GPL-2.0", "GPL-3.0", "GPLv2", "GPLv2+", "GPLv3", "GPLv3+",
         "LGPL", "LGPL-2.1", "LGPL-3.0", "LGPLv2", "LGPLv2+", "LGPLv3",
         "LGPLv3+", "AGPL-3.0", "AGPLv3+", "MPL", "MPL 1.1", "MPL 2.0",
         "EPL"]
      color := "orange"
      priority := 1 }
  , { spdxLicenseIds := ["CC0-1.0", "Unlicense", "WTFPL", "0BSD"]
      aliases := ["CC0"]
      color := "7cd958"
      priority := 3 } ]

/-- `licenseToColorMap`, built by the module-level `forEach` loops: for each
license type, each SPDX id and then each alias is mapped to the type's color
and priority. The keys are pairwise distinct (`licenseToColorMap_keys_nodup`
below), so first-match association-list lookup agrees with the JavaScript
object whose later assignments would overwrite earlier ones. -/
def licenseToColorMap : List (String × ColorEntry) :=
  licenseTypes.flatMap fun t =>
    (t.spdxLicenseIds ++ t.aliases).map fun license =>
      (license, { color := t.color, priority := t.priority })

/-- The JavaScript argument of `licenseToColor`: a single license string or an
array of licenses (`string | string[]`). -/
inductive LicensesArg where
  | single (s : String)
  | list (l : List String)

/-- The `Array.isArray` wrap at the top of `licenseToColor`. -/
def LicensesArg.toList : LicensesArg → List String
  | .single s => [s]
  | .list l => l

/-- One step of the stable descending sort
`Array.prototype.sort((a, b) => b.priority - a.priority)` specialized to the
plain color/priority records that arise when no prototype-chain value is in
play: the new element is placed after every already-placed element of greater
or equal priority (the sort is stable, so ties keep their original order). -/
def insertStable : List ColorEntry → ColorEntry → List ColorEntry
  | [], x => [x]
  | y :: ys, x =>
    if x.priority ≤ y.priority then y :: insertStable ys x else x :: y :: ys

/-- The stable descending-by-priority ordering of a list of plain
color/priority records. -/
def jsSortDesc (l : List ColorEntry) : List ColorEntry :=
  l.foldl insertStable []

/-- The own property names of `Object.prototype`: `licenseToColorMap` is a
plain object literal, so the property access `licenseToColorMap[license]`
falls back to the prototype chain and yields a truthy inherited value (a
built-in function, or the prototype object itself for `__proto__`) at these
keys even though they are not entries of the map. -/
def objectProtoKeys : List String :=
  ["constructor", "hasOwnProperty", "isPrototypeOf", "propertyIsEnumerable",
   "toLocaleString", "toString", "valueOf", "__proto__", "__defineGetter__",
   "__defineSetter__", "__lookupGetter__", "__lookupSetter__"]

/-- A truthy value surviving the `filter(Boolean)` stage of `licenseToColor`:
an own entry of `licenseToColorMap`, or a value inherited from
`Object.prototype`, whose `color` and `priority` properties are both
`undefined`. -/
inductive MapHit where
  | own (e : ColorEntry)
  | inherited
  deriving DecidableEq

/-- Property access `.color` on a surviving value: `undefined` on an
inherited one. -/
def MapHit.color : MapHit → Option String
  | .own e => some e.color
  | .inherited => none

/-- The number the sort comparator `(a, b) => b.priority - a.priority` hands
to the sort, after the SortCompare step that turns NaN into +0: on two own
entries it is the numeric priority difference; any comparison involving an
inherited value computes with `undefined`, gives NaN, and is treated as +0. -/
def sortCompare (a b : MapHit) : Int :=
  match a, b with
  | .own x, .own y => (y.priority : Int) - x.priority
  | _, _ => 0

/-- One step of the stable sort under the real comparator: the new element is
placed before the first already-placed element it strictly precedes
(`sortCompare x y < 0`), after every element comparing equal to it. -/
def insertStableJs : List MapHit → MapHit → List MapHit
  | [], x => [x]
  | y :: ys, x =>
    if 0 ≤ sortCompare x y then y :: insertStableJs ys x else x :: y :: ys

/-- `Array.prototype.sort((a, b) => b.priority - a.priority)` on the surviving
values. When every pairwise comparison is +0 (for example a lone inherited
value next to the sentinel) the specification forces the stable identity
order, which this model produces; when own and inherited values mix, the
comparator is inconsistent and ECMAScript leaves the order
implementation-defined — this model fixes the stable-insertion order, and no
theorem below depends on those mixed inputs beyond the head being inherited
exactly when the model says so. -/
def jsSortStable (l : List MapHit) : List MapHit :=
  l.foldl insertStableJs []

/-- The JavaScript property access `licenseToColorMap[license]`: the own
entry when `license` is a key of the map, otherwise the truthy inherited
value when `license` names an `Object.prototype` property, otherwise
`undefined` (dropped by `filter(Boolean)`). -/
def licenseToColorMapGet (license : String) : Option MapHit :=
  match licenseToColorMap.lookup license with
  | some e => some (.own e)
  | none => if license ∈ objectProtoKeys then some .inherited else none

/-- `licenseToColor(licenses)`, lines 321-333: wrap a lone string into an
array, map through the property access `licenseToColorMap[license]`, drop the
falsy results, append the `lightgrey`/0 sentinel, sort by the
`b.priority - a.priority` comparator, and take the `color` property of the
first element — which is `undefined` (`none`) when an inherited
`Object.prototype` value ends up first. The empty branch of the final match
is unreachable (the sentinel survives sorting) and models the destructuring
of a nonempty array. -/
def licenseToColor (licenses : LicensesArg) : Option String :=
  match jsSortStable (licenses.toList.filterMap licenseToColorMapGet ++
      [.own { color := "lightgrey", priority := 0 }]) with
  | first :: _ => first.color
  | [] => none

/-- Whether a JS value is a number. -/
def JsVal.isNumber : JsVal → Bool
  | .num _ => true
  | _ => false

/-- Whether a JS value is a string. -/
def JsVal.isString : JsVal → Bool
  | .str _ => true
  | _ => false

/-- The provider's link-based pagination: a listing of `total` items served
with page size `perPage` spans `⌈total / perPage⌉` pages, and the `last`
relation of the `Link` header points at that final page. -/
def lastPageNumber (total perPage : Nat) : Nat :=
  (total + perPage - 1) / perPage

/-- The color each priority level carries in `licenseTypes` (with the
sentinel's lightgrey at priority 0): every entry of `licenseToColorMap`
satisfies this correspondence (`licenseToColorMap_values_canonical`). -/
def prioColor (p : Nat) : String :=
  if p = 3 then "7cd958"
  else if p = 2 then "green"
  else if p = 1 then "orange"
  else "lightgrey"

/-- The descending-priority order underlying the sort comparator. -/
abbrev prioGe (a b : ColorEntry) : Prop := b.priority ≤ a.priority

/-- The mapped entry with the highest priority, first occurrence winning ties:
the claim's "mapped input license with the highest priority". -/
def bestOf (m : ColorEntry) : List ColorEntry → ColorEntry
  | [] => m
  | e :: es => bestOf (if m.priority < e.priority then e else m) es

/-- The claim's own description of `licenseToColor`, stated from its words to
be compared with the translation of the source: lightgrey when no element of
the input appears in `licenseToColorMap`, otherwise the color of the mapped
input license with the highest priority. -/
def claimedLicenseColor (licenses : List String) : String :=
  match licenses.filterMap fun license => licenseToColorMap.lookup license with
  | [] => "lightgrey"
  | m :: ms => (bestOf m ms).color

open GitHubCommitActivity

section SortLemmas

/-- Membership is preserved by one insertion step of the stable sort. -/
lemma mem_insertStable {l : List ColorEntry} {x a : ColorEntry} :
    a ∈ insertStable l x ↔ a = x ∨ a ∈ l := by
  induction l with
  | nil => simp [insertStable]
  | cons y ys ih =>
    rw [insertStable]
    split
    · simp only [List.mem_cons, ih]
      tauto
    · simp only [List.mem_cons]

/-- One insertion step preserves the descending-priority invariant. -/
lemma pairwise_insertStable {l : List ColorEntry} {x : ColorEntry}
    (h : l.Pairwise prioGe) : (insertStable l x).Pairwise prioGe := by
  induction l with
  | nil => simp [insertStable]
  | cons y ys ih =>
    rw [insertStable]
    rcases List.pairwise_cons.mp h with ⟨hy, hys⟩
    split
    · next hle =>
      refine List.pairwise_cons.mpr ⟨?_, ih hys⟩
      intro a ha
      rcases mem_insertStable.mp ha with rfl | ha2
      · exact hle
      · exact hy a ha2
    · next hgt =>
      have hlt : y.priority < x.priority := by omega
      refine List.pairwise_cons.mpr ⟨?_, List.pairwise_cons.mpr ⟨hy, hys⟩⟩
      intro a ha
      rcases List.mem_cons.mp ha with rfl | ha2
      · exact le_of_lt hlt
      · exact le_trans (hy a ha2) (le_of_lt hlt)

/-- Membership in the folded sort is membership in the accumulator or input. -/
lemma mem_foldl_insertStable {l : List ColorEntry} {a : ColorEntry} :
    ∀ {acc : List ColorEntry},
      a ∈ l.foldl insertStable acc ↔ a ∈ acc ∨ a ∈ l := by
  induction l with
  | nil => intro acc; simp
  | cons x xs ih =>
    intro acc
    rw [List.foldl_cons, ih, mem_insertStable]
    simp only [List.mem_cons]
    tauto

/-- The folded sort keeps the descending-priority invariant. -/
lemma pairwise_foldl_insertStable {l : List ColorEntry} :
    ∀ {acc : List ColorEntry}, acc.Pairwise prioGe →
      (l.foldl insertStable acc).Pairwise prioGe := by
  induction l with
  | nil => intro acc h; exact h
  | cons x xs ih => intro acc h; exact ih (pairwise_insertStable h)

/-- The JS sort permutes membership. -/
lemma mem_jsSortDesc {l : List ColorEntry} {a : ColorEntry} :
    a ∈ jsSortDesc l ↔ a ∈ l := by
  simp [jsSortDesc, mem_foldl_insertStable]

/-- The JS sort output is descending by priority. -/
lemma pairwise_jsSortDesc (l : List ColorEntry) :
    (jsSortDesc l).Pairwise prioGe :=
  pairwise_foldl_insertStable List.Pairwise.nil

/-- `bestOf` picks an element of the list it scans. -/
lemma bestOf_mem : ∀ (ms : List ColorEntry) (m : ColorEntry),
    bestOf m ms ∈ m :: ms := by
  intro ms
  induction ms with
  | nil => intro m; simp [bestOf]
  | cons e es ih =>
    intro m
    rw [bestOf]
    rcases List.mem_cons.mp (ih (if m.priority < e.priority then e else m)) with
      heq | hmem
    · rw [heq]
      split
      · simp
      · simp
    · simp only [List.mem_cons] at hmem ⊢
      tauto

/-- `bestOf` dominates every element of the list it scans. -/
lemma bestOf_ge : ∀ (ms : List ColorEntry) (m a : ColorEntry), a ∈ m :: ms →
    a.priority ≤ (bestOf m ms).priority := by
  intro ms
  induction ms with
  | nil =>
    intro m a ha
    simp only [List.mem_cons, List.not_mem_nil, or_false] at ha
    subst ha
    simp [bestOf]
  | cons e es ih =>
    intro m a ha
    rw [bestOf]
    rcases List.mem_cons.mp ha with rfl | ha2
    · have h1 : a.priority ≤ (if a.priority < e.priority then e else a).priority := by
        split
        · next h => exact le_of_lt h
        · exact le_refl _
      exact le_trans h1 (ih _ _ (List.mem_cons_self _ _))
    · rcases List.mem_cons.mp ha2 with rfl | ha3
      · have h1 : a.priority ≤ (if m.priority < a.priority then a else m).priority := by
          split
          · exact le_refl _
          · next h => omega
        exact le_trans h1 (ih _ _ (List.mem_cons_self _ _))
      · exact ih _ a (List.mem_cons_of_mem _ ha3)

end SortLemmas

section LicenseLemmas

/-- A successful association-list lookup exhibits a member pair. -/
lemma mem_of_lookup_eq_some {α β : Type} [BEq α] [LawfulBEq α] {a : α} {b : β} :
    ∀ {l : List (α × β)}, l.lookup a = some b → (a, b) ∈ l := by
  intro l
  induction l with
  | nil => intro h; simp [List.lookup] at h
  | cons hd tl ih =>
    intro h
    rw [List.lookup] at h
    split at h
    · next heq =>
      cases h
      have : a = hd.1 := by
        have := eq_of_beq heq
        exact this
      rw [this]
      left
    · exact List.mem_cons_of_mem _ (ih h)

/-- The keys of `licenseToColorMap` are pairwise distinct, so first-match
lookup agrees with the JavaScript object built by overwriting assignment. -/
lemma licenseToColorMap_keys_nodup :
    (licenseToColorMap.map Prod.fst).Nodup := by decide

/-- Every value stored in `licenseToColorMap` carries the canonical color of
its priority level. -/
lemma licenseToColorMap_values_canonical :
    ∀ e ∈ licenseToColorMap.map Prod.snd, e.color = prioColor e.priority := by
  decide

/-- A looked-up color entry carries the canonical color of its priority. -/
lemma lookup_canonical {s : String} {e : ColorEntry}
    (h : licenseToColorMap.lookup s = some e) :
    e.color = prioColor e.priority := by
  have hm : (s, e) ∈ licenseToColorMap := mem_of_lookup_eq_some h
  exact licenseToColorMap_values_canonical e
    (List.mem_map_of_mem Prod.snd hm)

/-- Every entry surviving the `filter(Boolean)` stage carries the canonical
color of its priority. -/
lemma mapped_canonical {l : List String} {e : ColorEntry}
    (h : e ∈ l.filterMap fun license => licenseToColorMap.lookup license) :
    e.color = prioColor e.priority := by
  rcases List.mem_filterMap.mp h with ⟨s, _, hs⟩
  exact lookup_canonical hs

/-- The sorted own-entries-plus-sentinel pipeline is nonempty and its head
carries the color the claim describes. -/
lemma jsSortDesc_full_shape (l : List String) :
    ∃ e t,
      jsSortDesc ((l.filterMap fun license => licenseToColorMap.lookup license)
          ++ [{ color := "lightgrey", priority := 0 }]) = e :: t ∧
      e.color = claimedLicenseColor l := by
  unfold claimedLicenseColor
  cases hm : l.filterMap (fun license => licenseToColorMap.lookup license) with
  | nil =>
    exact ⟨{ color := "lightgrey", priority := 0 }, [], rfl, rfl⟩
  | cons m ms =>
    rw [List.cons_append]
    set sentinel : ColorEntry := { color := "lightgrey", priority := 0 } with hsent
    set full : List ColorEntry := m :: ms ++ [sentinel] with hfull
    have hsent_mem : sentinel ∈ full := by
      simp [hfull, List.mem_append]
    cases hs : jsSortDesc full with
    | nil =>
      exfalso
      have := mem_jsSortDesc.mpr hsent_mem
      rw [hs] at this
      exact List.not_mem_nil _ this
    | cons h t =>
      refine ⟨h, t, hs, ?_⟩
      have hhead_mem : h ∈ full := by
        have : h ∈ jsSortDesc full := by rw [hs]; exact List.mem_cons_self _ _
        exact mem_jsSortDesc.mp this
      have hge : ∀ a ∈ full, a.priority ≤ h.priority := by
        intro a ha
        have ha2 : a ∈ h :: t := by rw [← hs]; exact mem_jsSortDesc.mpr ha
        rcases List.mem_cons.mp ha2 with rfl | ha3
        · exact le_refl _
        · have hp := pairwise_jsSortDesc full
          rw [hs] at hp
          exact (List.pairwise_cons.mp hp).1 a ha3
      have hb_mem : bestOf m ms ∈ m :: ms := bestOf_mem ms m
      have hb_mem_full : bestOf m ms ∈ full := by
        simp only [hfull, List.cons_append, List.mem_cons, List.mem_append]
        rcases List.mem_cons.mp hb_mem with heq | hbm
        · exact Or.inl heq
        · exact Or.inr (Or.inl hbm)
      have hb_ge : ∀ a ∈ m :: ms, a.priority ≤ (bestOf m ms).priority :=
        bestOf_ge ms m
      have hb_canon : (bestOf m ms).color = prioColor (bestOf m ms).priority := by
        apply mapped_canonical (l := l)
        rw [hm]
        exact hb_mem
      have hcase : h ∈ m :: ms ∨ h = sentinel := by
        simp only [hfull, List.cons_append, List.mem_cons, List.mem_append,
          List.mem_singleton] at hhead_mem ⊢
        tauto
      show h.color = (bestOf m ms).color
      rcases hcase with hmem | rfl
      · have h1 : h.priority ≤ (bestOf m ms).priority := hb_ge h hmem
        have h2 : (bestOf m ms).priority ≤ h.priority := hge _ hb_mem_full
        have hpr : h.priority = (bestOf m ms).priority := le_antisymm h1 h2
        have hh_canon : h.color = prioColor h.priority := by
          apply mapped_canonical (l := l)
          rw [hm]
          exact hmem
        rw [hh_canon, hb_canon, hpr]
      · have h2 : (bestOf m ms).priority ≤ 0 := hge _ hb_mem_full
        have hzero : (bestOf m ms).priority = 0 := Nat.le_zero.mp h2
        rw [hb_canon, hzero]
        rfl

/-- On own entries the real comparator's insertion step coincides with the
specialized one. -/
lemma insertStableJs_map_own (acc : List ColorEntry) (x : ColorEntry) :
    insertStableJs (acc.map MapHit.own) (.own x) =
      (insertStable acc x).map MapHit.own := by
  induction acc with
  | nil => rfl
  | cons y ys ih =>
    rw [List.map_cons, insertStableJs, insertStable]
    by_cases h : x.priority ≤ y.priority
    · have h2 : 0 ≤ sortCompare (.own x) (.own y) := by
        simp only [sortCompare]
        omega
      rw [if_pos h2, if_pos h, List.map_cons, ih]
    · have h2 : ¬0 ≤ sortCompare (.own x) (.own y) := by
        simp only [sortCompare]
        omega
      rw [if_neg h2, if_neg h]
      rfl

/-- On lists of own entries the real sort coincides with the specialized
descending sort. -/
lemma jsSortStable_map_own (l : List ColorEntry) :
    jsSortStable (l.map MapHit.own) = (jsSortDesc l).map MapHit.own := by
  suffices h : ∀ acc : List ColorEntry,
      (l.map MapHit.own).foldl insertStableJs (acc.map MapHit.own) =
        (l.foldl insertStable acc).map MapHit.own by
    exact h []
  induction l with
  | nil => intro acc; rfl
  | cons x xs ih =>
    intro acc
    rw [List.map_cons, List.foldl_cons, List.foldl_cons,
      insertStableJs_map_own, ih]

/-- When no input license names an `Object.prototype` property, the property
accesses surviving `filter(Boolean)` are exactly the own map entries. -/
lemma filterMap_get_of_no_proto {l : List String}
    (h : ∀ s ∈ l, s ∉ objectProtoKeys) :
    l.filterMap licenseToColorMapGet =
      (l.filterMap fun license => licenseToColorMap.lookup license).map
        MapHit.own := by
  induction l with
  | nil => rfl
  | cons s ss ih =>
    have hs : s ∉ objectProtoKeys := h s (List.mem_cons_self _ _)
    have hss : ∀ a ∈ ss, a ∉ objectProtoKeys := fun a ha =>
      h a (List.mem_cons_of_mem _ ha)
    have hget : licenseToColorMapGet s =
        (licenseToColorMap.lookup s).map MapHit.own := by
      unfold licenseToColorMapGet
      cases hl : licenseToColorMap.lookup s with
      | none => simp [hs]
      | some e => rfl
    rw [List.filterMap_cons, List.filterMap_cons, hget]
    cases hl : licenseToColorMap.lookup s with
    | none => simpa using ih hss
    | some e => simp [ih hss]

/-- The source's `licenseToColor` on a list touching no prototype key agrees
with the claim's description of it. -/
lemma licenseToColor_eq_claimed_of_no_proto (l : List String)
    (hl : ∀ s ∈ l, s ∉ objectProtoKeys) :
    licenseToColor (.list l) = some (claimedLicenseColor l) := by
  obtain ⟨e, t, hs, hc⟩ := jsSortDesc_full_shape l
  unfold licenseToColor
  rw [show LicensesArg.toList (.list l) = l from rfl,
    filterMap_get_of_no_proto hl,
    show [MapHit.own { color := "lightgrey", priority := 0 }] =
      List.map MapHit.own [{ color := "lightgrey", priority := 0 }] from rfl,
    ← List.map_append, jsSortStable_map_own, hs, List.map_cons]
  show some e.color = some (claimedLicenseColor l)
  rw [hc]

end LicenseLemmas

/-- Claim C1 (code bug at the one-item case): on a response with exactly one
item in the body and no pagination link header (so the link parser yields
null), `transformAuthorFilter` returns 0, not the count of items actually
returned (1): the item count is never consulted. The zero-item case of the
claim does yield 0, and the last-page-42 case yields the page value 42 (as
the string the link parser produces). -/
theorem c1_one_item_without_pagination_link_counts_zero :
    transformAuthorFilter parseLinkHeaderModel { headers := { link := none } }
        (Buffer.arr 1) = .ok (.num 0) ∧
      TransformResult.ok (.num 0) ≠ .ok (.num 1) ∧
      transformAuthorFilter parseLinkHeaderModel { headers := { link := none } }
        (Buffer.arr 0) = .ok (.num 0) ∧
      transformAuthorFilter parseLinkHeaderModel
          { headers := { link := some lastPage42Link } } (Buffer.arr 1) =
        .ok (.str "42") := by
  refine ⟨rfl, by decide, rfl, rfl⟩

/-- Claim C2 (code bug): on a response whose pagination link header is present
but carries no "last" relation, `transformAuthorFilter` evaluates
`parsed.last.page` with `parsed.last` undefined and so raises an uncontrolled
TypeError — not a classified InvalidResponse failure. -/
theorem c2_link_without_last_relation_raises_uncontrolled_fault :
    transformAuthorFilter parseLinkHeaderModel
        { headers := { link := some nextOnlyLink } } (Buffer.arr 1) =
      .typeError ∧
      TransformResult.typeError.failureKind = none := by
  refine ⟨rfl, rfl⟩

/-- Claim C3, counterexample: the pagination count operation does not always
return a numeric value — on a response whose link header's "last" relation
points at page 42 it returns the STRING "42" (the link parser exposes query
parameters as strings), refuting "returns an integer ... never a value of
another type such as a string". -/
theorem c3_counterexample_last_page_is_a_string :
    transformAuthorFilter parseLinkHeaderModel
        { headers := { link := some lastPage42Link } } (Buffer.arr 1) =
      .ok (.str "42") ∧
      (JsVal.str "42").isNumber = false ∧ (JsVal.str "42").isString = true := by
  refine ⟨rfl, rfl, rfl⟩

/-- Claim C3, amended: every value `transformAuthorFilter` returns (rather
than throws) is either the number 0 — exactly when the link parser yields
null — or the "last" relation's `page` query parameter, which is a string
when present and `undefined` otherwise; a non-zero count is therefore always
a string, never a number. -/
theorem c3_returned_nonzero_counts_are_strings :
    ∀ (parseLH : Option String → ParseResult) (res : Res) (buffer : Buffer)
      (v : JsVal),
      transformAuthorFilter parseLH res buffer = .ok v →
        (v = .num 0 ∧ parseLH res.headers.link = none) ∨
        (∃ parsed last, parseLH res.headers.link = some parsed ∧
          parsed.lookup "last" = some last ∧
          v = match last.page with
              | some p => JsVal.str p
              | none => JsVal.undef) := by
  intro parseLH res buffer v h
  unfold transformAuthorFilter at h
  split at h
  · simp at h
  · split at h
    · next hp =>
      left
      refine ⟨?_, hp⟩
      injection h with h2
      exact h2.symm
    · next parsed hp =>
      split at h
      · simp at h
      · next last hl =>
        right
        refine ⟨parsed, last, hp, hl, ?_⟩
        split at h
        · next heq =>
          rw [heq]
          injection h with h2
          exact h2.symm
        · next p heq =>
          rw [heq]
          injection h with h2
          exact h2.symm

/-- Claim C3, amended, witness at a concrete input: the absent-header case. -/
theorem c3_returned_nonzero_counts_are_strings_witness :
    (JsVal.num 0 = JsVal.num 0 ∧
        parseLinkHeaderModel (Headers.mk none).link = none) ∨
      (∃ parsed last,
        parseLinkHeaderModel (Headers.mk none).link = some parsed ∧
          parsed.lookup "last" = some last ∧
          JsVal.num 0 = match last.page with
            | some p => JsVal.str p
            | none => JsVal.undef) :=
  c3_returned_nonzero_counts_are_strings parseLinkHeaderModel
    { headers := { link := none } } (Buffer.arr 0) (.num 0) rfl

/-- Claim C4, counterexample: the not-found-equivalent response (body message
"Not Found") is classified by `transformAuthorFilter` as InvalidResponse,
not as NotFound. -/
theorem c4_counterexample_not_found_classified_invalid_response :
    (transformAuthorFilter parseLinkHeaderModel { headers := { link := none } }
          (Buffer.obj (some "Not Found"))).failureKind =
      some .invalidResponse ∧
      some FailureKind.invalidResponse ≠ some FailureKind.notFound := by
  refine ⟨rfl, by decide⟩

/-- Claim C4, amended: `transformAuthorFilter` classifies every response whose
body message is "Not Found" as an InvalidResponse failure with pretty message
"invalid branch" (a provider answer it treats as an invalid branch), not as
NotFound. -/
theorem c4_not_found_message_yields_invalid_branch :
    ∀ (parseLH : Option String → ParseResult) (res : Res),
      transformAuthorFilter parseLH res (Buffer.obj (some "Not Found")) =
        .failure .invalidResponse "invalid branch" := by
  intro parseLH res
  rfl

/-- Claim C5: every REST listing request built by `fetchAuthorFilter` carries
`per_page = '1'`, and under the provider's link pagination a page size of 1
makes the last-page number equal the total item count. -/
theorem c5_fetchAuthorFilter_requests_page_size_one :
    ∀ (interval user repo : String) (branch : Option String)
      (authorFilter : String) (now : Int),
      (fetchAuthorFilter interval user repo branch
          authorFilter now).searchParams.per_page = "1" ∧
      ∀ total : Nat, lastPageNumber total 1 = total := by
  intro interval user repo branch authorFilter now
  exact ⟨rfl, fun total => by simp [lastPageNumber]⟩

/-- Claim C6: `handle` issues exactly one outbound request on every input —
on the author-filter path the single `per_page = 1` listing request — and the
request trace does not depend on the transport environment at all, so the
request count is a fixed constant independent of the total item count and no
paging loop ever occurs. -/
theorem c6_handle_issues_exactly_one_request :
    ∀ (metric : JsVal → String) (parseLH : Option String → ParseResult)
      (envRest envRest2 : RestRequest → RestResponse)
      (envGql envGql2 : ApiRequest → GqlData) (now : Int)
      (p : HandleParams) (q : QueryParams),
      (handle metric parseLH envRest envGql now p q).1.length = 1 ∧
      (handle metric parseLH envRest envGql now p q).1 =
        (handle metric parseLH envRest2 envGql2 now p q).1 := by
  intro metric parseLH envRest envRest2 envGql envGql2 now p q
  cases hq : jsTruthy q.authorFilter <;> simp [handle, hq]

/-- Claim C7, counterexample: `getIntervalQueryStartDate` with the fixed
interval 'm' produces different results in two runs whose clock readings
differ by one day, refuting determinism in the interval argument alone. -/
theorem c7_counterexample_start_date_depends_on_clock :
    getIntervalQueryStartDate "m" 0 ≠
      getIntervalQueryStartDate "m" 86400000 := by
  decide

/-- Claim C7, amended: `getIntervalQueryStartDate` is a deterministic pure
function of the interval together with the clock reading, not of the interval
alone: for 't' it returns null whatever the clock says, while for 'm' any two
distinct clock readings give distinct results. -/
theorem c7_start_date_deterministic_in_interval_and_clock :
    ∀ now1 now2 : Int,
      getIntervalQueryStartDate "t" now1 = getIntervalQueryStartDate "t" now2 ∧
      (now1 ≠ now2 →
        getIntervalQueryStartDate "m" now1 ≠
          getIntervalQueryStartDate "m" now2) := by
  intro now1 now2
  refine ⟨rfl, fun hne heq => hne ?_⟩
  have h1 : getIntervalQueryStartDate "m" now1 = some (now1 - 30 * msPerDay) := by
    simp [getIntervalQueryStartDate]
  have h2 : getIntervalQueryStartDate "m" now2 = some (now2 - 30 * msPerDay) := by
    simp [getIntervalQueryStartDate]
  rw [h1, h2] at heq
  have h3 := Option.some.inj heq
  omega

/-- Claim C7, amended, witness at concrete clock readings 0 and 1. -/
theorem c7_start_date_deterministic_witness :
    getIntervalQueryStartDate "t" 0 = getIntervalQueryStartDate "t" 1 ∧
      getIntervalQueryStartDate "m" 0 ≠ getIntervalQueryStartDate "m" 1 :=
  ⟨(c7_start_date_deterministic_in_interval_and_clock 0 1).1,
    (c7_start_date_deterministic_in_interval_and_clock 0 1).2 (by decide)⟩

/-- Claim C8: for every validated GraphQL payload, `transform` throws
InvalidResponse with message "invalid branch" exactly when
`data.repository.object` is absent, and otherwise returns
`object.history.totalCount` unchanged. -/
theorem c8_transform_invalid_branch_iff_object_absent :
    ∀ d : GqlData,
      (transform d =
          .error { kind := .invalidResponse, prettyMessage := "invalid branch" } ↔
        d.repository.object = none) ∧
      ∀ repo, d.repository.object = some repo →
        transform d = .ok repo.history.totalCount := by
  intro d
  cases hd : d.repository.object <;> simp [transform, hd]

/-- Claim C8, witness: a payload with 457 commits on the object's history. -/
theorem c8_transform_invalid_branch_iff_object_absent_witness :
    transform
        { repository :=
          { object := some { history := { totalCount := 457 } } } } =
      .ok 457 :=
  (c8_transform_invalid_branch_iff_object_absent
      { repository := { object := some { history := { totalCount := 457 } } } }).2
    { history := { totalCount := 457 } } rfl

/-- Claim C9, counterexample: "toString" is not an entry of
`licenseToColorMap`, so the claim requires lightgrey, but the property access
reaches the function inherited from `Object.prototype`; that truthy value
survives `filter(Boolean)`, every comparison against it is NaN (treated as
+0, so the stable sort keeps it first), and `licenseToColor` returns
`undefined` — not "lightgrey". -/
theorem c9_counterexample_prototype_key_yields_undefined :
    licenseToColorMap.lookup "toString" = none ∧
      licenseToColor (.list ["toString"]) = none ∧
      (none : Option String) ≠ some "lightgrey" := by
  refine ⟨by decide, by decide, by decide⟩

/-- Claim C9, amended: for every input none of whose elements names an
`Object.prototype` property, `licenseToColor` returns lightgrey when no
element appears in `licenseToColorMap` and otherwise the color of the mapped
input license with the highest priority (the claim's description
`claimedLicenseColor`); and a lone license string behaves exactly as the
singleton list, for every string. An input element naming an
`Object.prototype` property instead reaches a truthy inherited value and can
make the function return `undefined`. -/
theorem c9_licenseToColor_highest_priority_without_prototype_keys :
    ∀ input : LicensesArg,
      ((∀ s ∈ input.toList, s ∉ objectProtoKeys) →
        licenseToColor input = some (claimedLicenseColor input.toList)) ∧
      ∀ s : String, licenseToColor (.single s) = licenseToColor (.list [s]) := by
  intro input
  refine ⟨fun h => ?_, fun s => rfl⟩
  cases input with
  | single s => exact licenseToColor_eq_claimed_of_no_proto [s] h
  | list l => exact licenseToColor_eq_claimed_of_no_proto l h

/-- Claim C9, amended, witness: a concrete prototype-free input. -/
theorem c9_licenseToColor_highest_priority_witness :
    licenseToColor (.list ["MIT", "GPL"]) =
      some (claimedLicenseColor ["MIT", "GPL"]) :=
  (c9_licenseToColor_highest_priority_without_prototype_keys
      (.list ["MIT", "GPL"])).1 (by decide)

/-- Claim C10: `render` labels the badge "commits" (plus the author suffix)
exactly for interval 't' and "commit activity" otherwise; the message suffix
for 'm' is "/month" while that for '4w' is "/four weeks", two different
strings, even though `getIntervalQueryStartDate` gives both intervals the
identical 30-day window. -/
theorem c10_render_label_and_interval_suffix :
    ∀ (metric : JsVal → String) (commitCount : JsVal)
      (authorFilter : Option String) (interval : String),
      (render metric interval commitCount authorFilter).label =
        (if interval = "t" then "commits" else "commit activity") ++
          authorFilterLabel authorFilter ∧
      (render metric "m" commitCount authorFilter).message =
        metric commitCount ++ "/month" ∧
      (render metric "4w" commitCount authorFilter).message =
        metric commitCount ++ "/four weeks" ∧
      "/month" ≠ "/four weeks" ∧
      ∀ now : Int,
        getIntervalQueryStartDate "m" now = getIntervalQueryStartDate "4w" now := by
  intro metric c a interval
  refine ⟨rfl, ?_, ?_, by decide, fun now => ?_⟩
  · simp [render, intervalLabel]
  · simp [render, intervalLabel]
  · simp [getIntervalQueryStartDate]
